import Mathlib

/-!
Shallow embedding of the aws-iam-manager reconciler (src/src/users.js and the
Policies component) over a trace-based effect model.  Every remote AWS call is
an element of `Call`; an operation is a function from an environment (the
oracle giving each remote call's response and telling which calls fail) to a
result (`Except Call α`, the error carrying the failing call) paired with the
list of calls issued, in dispatch order.  `Promise.all` fan-outs are modelled
by `M.par` / `M.parPair`: every branch is dispatched (its calls appear in the
trace) and the aggregate result is the first error if any branch failed.
-/

namespace IamManager

/-- Parameters of an `iam.createPolicy` request, as built by the Policies
component: `PolicyName`, `PolicyDocument` and `Path`. -/
structure PolicyCreateParams where
  PolicyName : String
  PolicyDocument : String
  Path : String
deriving DecidableEq, Repr

/-- The remote calls the two components issue (IAM calls plus the SES
notification entry points). -/
inductive Call where
  | createUser (UserName Path : String)
  | createLoginProfile (UserName Password : String) (PasswordResetRequired : Bool)
  | createAccessKey (UserName : String)
  | sendProgrammaticKeys (UserName : String) (credentials : String) (accountName : String)
  | sendUserCredentials (UserName Password accountName : String)
  | listUsers (p : String)
  | listAccessKeys (UserName : String)
  | deleteAccessKey (AccessKeyId UserName : String)
  | deleteLoginProfile (UserName : String)
  | listGroupsForUser (UserName : String)
  | removeUserFromGroup (UserName GroupName : String)
  | deleteUser (UserName : String)
  | listPolicies
  | createPolicy (p : PolicyCreateParams)
  | listEntitiesForPolicy (PolicyArn : String)
  | detachGroupPolicy (GroupName PolicyArn : String)
  | deletePolicy (PolicyArn : String)
deriving DecidableEq, Repr

/-- Opaque response values returned by remote calls.  The AWS mock used by the
repository's tests echoes the request parameters back, which the `…Params`
constructors can represent; real responses are arbitrary `str` tokens. -/
inductive RVal where
  | unit
  | str (s : String)
  | createParams (p : PolicyCreateParams)
  | deleteParams (PolicyArn : String)
  | detachParams (GroupName PolicyArn : String)
deriving DecidableEq, Repr

/-- The environment: remote-state oracles (what listings return), response
oracles (what each call resolves with), the generated password, the
process-wide `USERS_PATH` configuration value, and the failure oracle. -/
structure Env where
  usersPath : String
  liveUsers : List String
  accessKeysOf : String → List String
  groupsOf : String → List String
  livePolicyArns : List String
  entitiesOf : String → List String
  createUserResp : String → RVal
  deleteUserResp : String → RVal
  createAccessKeyResp : String → RVal
  deleteAccessKeyResp : String → String → RVal
  removeFromGroupResp : String → String → RVal
  createPolicyResp : PolicyCreateParams → RVal
  deletePolicyResp : String → RVal
  detachResp : String → String → RVal
  genPassword : String → String
  fails : Call → Bool

/-- An effectful operation: given the environment it yields a result (or the
first failing call) and the trace of calls issued, in dispatch order. -/
def M (α : Type) : Type := Env → Except Call α × List Call

/-- Return without issuing any call. -/
def M.pure {α : Type} (a : α) : M α := fun _ => (Except.ok a, [])

/-- Sequencing (`await` then continue); on failure the continuation never
runs and issues nothing. -/
def M.bind {α β : Type} (m : M α) (f : α → M β) : M β := fun env =>
  match m env with
  | (Except.error e, t) => (Except.error e, t)
  | (Except.ok a, t) => ((f a env).1, t ++ (f a env).2)

/-- Read the environment (process state / config); issues no call. -/
def M.getEnv : M Env := fun env => (Except.ok env, [])

/-- Issue one awaited remote call: it always appears in the trace; it fails
exactly when the failure oracle says so, else resolves with `resp env`. -/
def M.callWith {α : Type} (c : Call) (resp : Env → α) : M α := fun env =>
  ((if env.fails c then Except.error c else Except.ok (resp env)), [c])

/-- Issue a fire-and-forget call: it is dispatched (appears in the trace) but
its result is never awaited, so it cannot fail the caller. -/
def M.fire (c : Call) : M Unit := fun _ => (Except.ok (), [c])

/-- Aggregate a list of already-dispatched results: first error wins, else
the list of values (the result side of `Promise.all`). -/
def exceptSeq {α : Type} : List (Except Call α) → Except Call (List α)
  | [] => Except.ok []
  | Except.error e :: _ => Except.error e
  | Except.ok a :: rest =>
    match exceptSeq rest with
    | Except.error e => Except.error e
    | Except.ok as => Except.ok (a :: as)

/-- Model of `Promise.all` over a batch: every branch is dispatched (all traces are
concatenated in list order — one linearization of the concurrent dispatch),
and the aggregate fails iff some branch fails. -/
def M.par {α : Type} (ms : List (M α)) : M (List α) := fun env =>
  (exceptSeq (ms.map fun m => (m env).1), (ms.map fun m => (m env).2).flatten)

/-- Model of `Promise.all` over a pair of independent batches (both dispatched, both
traces recorded, aggregate fails iff either side fails). -/
def M.parPair {α β : Type} (m1 : M α) (m2 : M β) : M (α × β) := fun env =>
  (match (m1 env).1, (m2 env).1 with
   | Except.ok a, Except.ok b => Except.ok (a, b)
   | Except.error e, _ => Except.error e
   | _, Except.error e => Except.error e,
   (m1 env).2 ++ (m2 env).2)

/-- Whether an `Except` result is a rejection. -/
def isFailure {α : Type} : Except Call α → Bool
  | Except.error _ => true
  | Except.ok _ => false

/-- lodash.difference: the elements of `a` not included in `b`, in the order
of `a` (value equality on opaque strings). -/
def difference (a b : List String) : List String :=
  a.filter fun x => !(b.contains x)

/-- JavaScript `s.substr(-5)`: the last five characters of `s` (the whole
string when it is shorter than five characters). -/
def substrLast5 (s : String) : String :=
  String.mk (s.data.drop (s.length - 5))

/-! ### Users (src/src/users.js) -/

/-- Source `Users.generateUserLoginProfile`: generates a password (modelled by the
environment's `genPassword` oracle in place of `crypto.randomBytes`), awaits
`iam.createLoginProfile` with `PasswordResetRequired: true`, and returns the
password. -/
def generateUserLoginProfileM (UserName : String) : M String :=
  M.bind M.getEnv fun env =>
  M.bind (M.callWith (Call.createLoginProfile UserName (env.genPassword UserName) true)
    fun _ => RVal.unit) fun _ =>
  M.pure (env.genPassword UserName)

/-- Source `Users.generateProgrammaticAccessKeys`: one `iam.createAccessKey` call. -/
def generateProgrammaticAccessKeysM (UserName : String) : M RVal :=
  M.callWith (Call.createAccessKey UserName) fun e => e.createAccessKeyResp UserName

/-- String token standing for the credentials object forwarded to SES. -/
def credentialsToken (UserName : String) : String := UserName

/-- Source `Users.createUser`: awaits `iam.createUser` with `Path` from the
process-wide configuration; if the last five characters of `UserName` equal
`_keys` it creates an access key and awaits the programmatic-keys email,
otherwise it creates a login profile and fires (does not await) the
credentials email; either way it returns the raw create-user response. -/
def createUserM (UserName accountName : String) : M RVal :=
  M.bind M.getEnv fun env =>
  M.bind (M.callWith (Call.createUser UserName env.usersPath)
    fun e => e.createUserResp UserName) fun createUserResponse =>
  if substrLast5 UserName = "_keys" then
    M.bind (generateProgrammaticAccessKeysM UserName) fun _ =>
    M.bind (M.callWith
      (Call.sendProgrammaticKeys UserName (credentialsToken UserName) accountName)
      fun _ => RVal.unit) fun _ =>
    M.pure createUserResponse
  else
    M.bind (generateUserLoginProfileM UserName) fun password =>
    M.bind (M.fire (Call.sendUserCredentials UserName password accountName)) fun _ =>
    M.pure createUserResponse

/-- Source `Users.listUserAccessKeys`: one `iam.listAccessKeys` call; the response's
`AccessKeyMetadata` key ids come from the environment oracle. -/
def listUserAccessKeysM (UserName : String) : M (List String) :=
  M.callWith (Call.listAccessKeys UserName) fun e => e.accessKeysOf UserName

/-- Source `Users.deleteLoginProfile`: one `iam.deleteLoginProfile` call. -/
def deleteLoginProfileM (UserName : String) : M RVal :=
  M.callWith (Call.deleteLoginProfile UserName) fun _ => RVal.unit

/-- Source `Users.deleteAccessKeys`: awaits the access-key listing, then issues one
`iam.deleteAccessKey` per listed key id concurrently and awaits them all,
returning the list of per-key results. -/
def deleteAccessKeysM (UserName : String) : M (List RVal) :=
  M.bind (listUserAccessKeysM UserName) fun accessKeys =>
  M.par (accessKeys.map fun kid =>
    M.callWith (Call.deleteAccessKey kid UserName)
      fun e => e.deleteAccessKeyResp kid UserName)

/-- The group-removal batch inside `Users.deleteUser`: one
`groups.removeUserFromGroup` per group of `userGroups`, dispatched together
(the `groupRemovalPromises` of the source). -/
def groupRemovalM (UserName : String) (userGroups : List String) : M (List RVal) :=
  M.par (userGroups.map fun g =>
    M.callWith (Call.removeUserFromGroup UserName g)
      fun e => e.removeFromGroupResp UserName g)

/-- The credential-removal branch inside `Users.deleteUser`: all access keys
when the last five characters of `UserName` equal `_keys`, the login profile
otherwise. -/
def credentialRemovalM (UserName : String) : M RVal :=
  if substrLast5 UserName = "_keys" then
    M.bind (deleteAccessKeysM UserName) fun _ => M.pure RVal.unit
  else
    M.bind (deleteLoginProfileM UserName) fun _ => M.pure RVal.unit

/-- Source `Users.deleteUser`: awaits `iam.listGroupsForUser`; dispatches one group
removal per group; then (branching on the `_keys` suffix) awaits deletion of
all access keys or of the login profile, and awaits the group removals; only
after both complete does it issue `iam.deleteUser`, whose result it returns.
The group-removal batch and the credential deletion are modelled with
`M.parPair`: both are dispatched before either is awaited, as in the source,
where the group-removal promises are created before `deleteAccessKeys` /
`deleteLoginProfile` is awaited. -/
def deleteUserM (UserName : String) : M RVal :=
  M.bind (M.callWith (Call.listGroupsForUser UserName)
    fun e => e.groupsOf UserName) fun userGroups =>
  M.bind (M.parPair (groupRemovalM UserName userGroups)
    (credentialRemovalM UserName)) fun _ =>
  M.callWith (Call.deleteUser UserName) fun e => e.deleteUserResp UserName

/-- The parsed users.yml document consumed by `Users.update`. -/
structure UsersJson where
  users : List String
deriving DecidableEq, Repr

/-- Source `Users.update`: awaits `iam.listUsers` filtered by the configured path,
computes `usersToAdd = difference(newUsers, oldUsers)` and
`usersToDelete = difference(oldUsers, newUsers)`, dispatches all creates and
all deletes as two concurrent batches, and returns the pair of result
sequences. -/
def updateM (json : UsersJson) (accountName : String) : M (List RVal × List RVal) :=
  M.bind M.getEnv fun env =>
  M.bind (M.callWith (Call.listUsers env.usersPath)
    fun e => e.liveUsers) fun oldUsers =>
  M.bind (M.parPair
    (M.par ((difference json.users oldUsers).map fun u => createUserM u accountName))
    (M.par ((difference oldUsers json.users).map fun u => deleteUserM u))) fun results =>
  M.pure results

/-! ### Policies

The `Policies.js` source file is not present under src/; only its Jest test
suite is (src/unnamed/part_000).  The definitions below are modelled from the
spec (sections 4.4 and 8) with the test suite as the binding constraint where
the two disagree: the `#createPolicy` test expects the created request's
`PolicyDocument` to be exactly the document argument (input `doc` gives
output `doc`), while the `#update` test expects the create results to carry
the JSON-quoted document (`"doc"` with quotes); both pass only if the
JSON serialization happens in `update` before `createPolicy` is called, so
that is how the model is built. -/

/-- JSON string escaping for one character (quote and backslash). -/
def jsonEscapeChar (c : Char) : String :=
  if c = '"' then "\\\"" else if c = '\\' then "\\\\" else String.mk [c]

/-- Model of `JSON.stringify` on a plain string: the quoted, escaped string. -/
def jsonStringifyString (s : String) : String :=
  "\"" ++ String.join (s.data.map jsonEscapeChar) ++ "\""

/-- One desired policy from the parsed input document: a name and a document
body. -/
structure PolicyInput where
  name : String
  document : String
deriving DecidableEq, Repr

/-- The parsed policies document consumed by `Policies.update`. -/
structure PoliciesJson where
  policies : List PolicyInput
deriving DecidableEq, Repr

/-- Modelled from the spec: `Policies.createPolicy(name, document)` (source
file missing from src/).  Builds one `iam.createPolicy` request with
`PolicyName = name`, `PolicyDocument = document` passed through unchanged,
and `Path` from the process-wide configuration, and returns the remote
response.  The pass-through (rather than re-quoting) of `document` is forced
by the `#createPolicy` test, which expects the request's `PolicyDocument` to
be exactly the argument. -/
def createPolicyM (name document : String) : M RVal :=
  M.bind M.getEnv fun env =>
  M.callWith (Call.createPolicy ⟨name, document, env.usersPath⟩)
    fun e => e.createPolicyResp ⟨name, document, env.usersPath⟩

/-- Modelled from the spec: `Policies.detachFromAllEntities(policyArn)`
(source file missing from src/).  Awaits `iam.listEntitiesForPolicy`, then
issues one `iam.detachGroupPolicy` per attached group concurrently and
returns the per-group results. -/
def detachFromAllEntitiesM (PolicyArn : String) : M (List RVal) :=
  M.bind (M.callWith (Call.listEntitiesForPolicy PolicyArn)
    fun e => e.entitiesOf PolicyArn) fun groups =>
  M.par (groups.map fun g =>
    M.callWith (Call.detachGroupPolicy g PolicyArn)
      fun e => e.detachResp g PolicyArn)

/-- Modelled from the spec: `Policies.removePolicy(policyArn)` (source file
missing from src/).  Awaits detaching from all entities, then issues
`iam.deletePolicy` and returns its result; a detach failure propagates and
the delete is never issued. -/
def removePolicyM (PolicyArn : String) : M RVal :=
  M.bind (detachFromAllEntitiesM PolicyArn) fun _ =>
  M.callWith (Call.deletePolicy PolicyArn) fun e => e.deletePolicyResp PolicyArn

/-- Modelled from the spec: `Policies.update(json)` (source file missing from
src/).  Awaits `iam.listPolicies`; with no desired/live diff, every input
policy is created (its document JSON-serialized here, per the `#update`
test) and every live policy is removed (detach + delete); returns the pair
(createResult, deleteResult). -/
def policiesUpdateM (json : PoliciesJson) : M (List RVal × List RVal) :=
  M.bind (M.callWith Call.listPolicies fun e => e.livePolicyArns) fun arns =>
  M.bind (M.parPair
    (M.par (json.policies.map fun p =>
      createPolicyM p.name (jsonStringifyString p.document)))
    (M.par (arns.map fun a => removePolicyM a))) fun results =>
  M.pure results

/-! ### Concrete environments and inputs for the witness theorems -/

/-- A concrete failure-free environment used by the witness theorems: remote
state as in the repository's tests (live users, two access keys per user,
two groups per user, live policy ARNs `123`, `1234`, attached groups
`g_first`, `g_second`), echo-style response oracles. -/
def envAllOk : Env :=
  { usersPath := "/path/"
    liveUsers := ["bob_keys", "carol"]
    accessKeysOf := fun _ => ["AK1", "AK2"]
    groupsOf := fun _ => ["g1", "g2"]
    livePolicyArns := ["123", "1234"]
    entitiesOf := fun _ => ["g_first", "g_second"]
    createUserResp := fun u => RVal.str u
    deleteUserResp := fun u => RVal.str u
    createAccessKeyResp := fun u => RVal.str u
    deleteAccessKeyResp := fun k u => RVal.str (k ++ u)
    removeFromGroupResp := fun u g => RVal.str (u ++ g)
    createPolicyResp := RVal.createParams
    deletePolicyResp := RVal.deleteParams
    detachResp := RVal.detachParams
    genPassword := fun u => u ++ "pw"
    fails := fun _ => false }

/-- Like `envAllOk` but every user has no access keys. -/
def envNoKeys : Env :=
  { envAllOk with accessKeysOf := fun _ => [] }

/-- Like `envAllOk` but the detach of policy ARN `ARN` from group `g_first`
fails. -/
def envDetachFail : Env :=
  { envAllOk with
    fails := fun c => c = Call.detachGroupPolicy "g_first" "ARN" }

/-- Like `envAllOk` but creating user `alice` fails. -/
def envCreateAliceFail : Env :=
  { envAllOk with
    fails := fun c => c = Call.createUser "alice" envAllOk.usersPath }

/-- Like `envAllOk` but removing user `carol` from group `g1` fails. -/
def envGroupRemovalFail : Env :=
  { envAllOk with
    fails := fun c => c = Call.removeUserFromGroup "carol" "g1" }

/-- The environment of the Policies `#update` test: empty configured path,
live policies with ARNs `123` and `1234`, every policy attached to groups
`g_first` and `g_second`, AWS mocks echoing the request parameters. -/
def envPoliciesTest : Env :=
  { envAllOk with usersPath := "" }

/-- The environment of the Policies `#createPolicy` test: configured path
`/path`, AWS mocks echoing the request parameters. -/
def envCreatePolicyTest : Env :=
  { envAllOk with usersPath := "/path" }

/-- The desired-state input of the Policies `#update` test. -/
def jsonPoliciesTest : PoliciesJson := ⟨[⟨"1", "doc"⟩]⟩

/-- The desired-state users input of the spec's scenario. -/
def jsonUsersTest : UsersJson := ⟨["alice", "bob_keys"]⟩

/-- The credential-deletion calls `Users.deleteUser` performs for a user:
the access-key listing plus one delete per key for a `_keys` user, the
login-profile deletion otherwise. -/
def credDeleteCalls (u : String) (env : Env) : List Call :=
  if substrLast5 u = "_keys" then
    Call.listAccessKeys u :: ((env.accessKeysOf u).map fun k => Call.deleteAccessKey k u)
  else
    [Call.deleteLoginProfile u]

/-! ### Helper lemmas about the effect model -/

theorem callWith_nofail {α : Type} (c : Call) (resp : Env → α) (env : Env)
    (h : env.fails c = false) :
    M.callWith c resp env = (Except.ok (resp env), [c]) := by
  simp [M.callWith, h]

theorem mem_difference (a b : List String) (x : String) :
    x ∈ difference a b ↔ x ∈ a ∧ x ∉ b := by
  simp [difference, List.mem_filter]

theorem exceptSeq_map_ok {α β : Type} (l : List α) (f : α → Except Call β)
    (g : α → β) (h : ∀ x ∈ l, f x = Except.ok (g x)) :
    exceptSeq (l.map f) = Except.ok (l.map g) := by
  induction l with
  | nil => rfl
  | cons a rest ih =>
    have ha := h a (List.mem_cons_self a rest)
    have hrest : ∀ x ∈ rest, f x = Except.ok (g x) :=
      fun x hx => h x (List.mem_cons_of_mem a hx)
    simp [exceptSeq, ha, ih hrest]

theorem exceptSeq_error_of_mem {α : Type} (l : List (Except Call α))
    (e : Except Call α) (hmem : e ∈ l) (herr : isFailure e = true) :
    isFailure (exceptSeq l) = true := by
  induction l with
  | nil => cases hmem
  | cons a rest ih =>
    rcases List.mem_cons.mp hmem with h | h
    · subst h
      cases e with
      | error c => simp [exceptSeq, isFailure]
      | ok v => cases herr
    · cases a with
      | error c => simp [exceptSeq, isFailure]
      | ok v =>
        have := ih h
        simp only [exceptSeq]
        cases hseq : exceptSeq rest with
        | error c => simp [isFailure]
        | ok vs => rw [hseq] at this; cases this

theorem flatten_map_singleton {α β : Type} (l : List α) (f : α → β) :
    (l.map fun a => [f a]).flatten = l.map f := by
  induction l with
  | nil => rfl
  | cons a rest ih => simp [ih]

theorem par_callWith_nofail {α β : Type} (l : List β) (cf : β → Call)
    (rf : β → Env → α) (env : Env) (h : ∀ c, env.fails c = false) :
    M.par (l.map fun b => M.callWith (cf b) (rf b)) env =
      (Except.ok (l.map fun b => rf b env), l.map cf) := by
  simp only [M.par, List.map_map, Function.comp_def, M.callWith, h,
    Bool.false_eq_true, if_false]
  rw [exceptSeq_map_ok _ _ (fun b => rf b env) (fun _ _ => rfl),
    flatten_map_singleton]

theorem createUserM_nofail (name accountName : String) (env : Env)
    (h : ∀ c, env.fails c = false) :
    createUserM name accountName env =
      (Except.ok (env.createUserResp name),
       if substrLast5 name = "_keys" then
         [Call.createUser name env.usersPath, Call.createAccessKey name,
          Call.sendProgrammaticKeys name (credentialsToken name) accountName]
       else
         [Call.createUser name env.usersPath,
          Call.createLoginProfile name (env.genPassword name) true,
          Call.sendUserCredentials name (env.genPassword name) accountName]) := by
  by_cases hk : substrLast5 name = "_keys" <;>
    simp [createUserM, M.bind, M.getEnv, M.callWith, M.pure, M.fire,
      generateProgrammaticAccessKeysM, generateUserLoginProfileM, h, hk]

/-- C1: the diff computed inside `Users.update` (via lodash `difference`)
satisfies `toCreate = D − L` and `toDelete = L − D` element-wise, the two
sets are disjoint, and a name present in both `D` and `L` lands in
neither set. -/
theorem update_diff_correct (D L : List String) (x : String) :
    (x ∈ difference D L ↔ x ∈ D ∧ x ∉ L) ∧
    (x ∈ difference L D ↔ x ∈ L ∧ x ∉ D) ∧
    ¬(x ∈ difference D L ∧ x ∈ difference L D) ∧
    (x ∈ D → x ∈ L → x ∉ difference D L ∧ x ∉ difference L D) := by
  refine ⟨mem_difference D L x, mem_difference L D x, ?_, ?_⟩
  · rintro ⟨h1, h2⟩
    exact ((mem_difference L D x).mp h2).2 ((mem_difference D L x).mp h1).1
  · intro hD hL
    exact ⟨fun hc => ((mem_difference D L x).mp hc).2 hL,
           fun hd => ((mem_difference L D x).mp hd).2 hD⟩

/-- C1 witness: the spec's scenario, desired `[alice, bob_keys]` against
live `[bob_keys, carol]`; `bob_keys` is in both lists and lands in neither
diff set. -/
theorem update_diff_correct_witness :
    "bob_keys" ∉ difference ["alice", "bob_keys"] ["bob_keys", "carol"] ∧
    "bob_keys" ∉ difference ["bob_keys", "carol"] ["alice", "bob_keys"] :=
  (update_diff_correct ["alice", "bob_keys"] ["bob_keys", "carol"] "bob_keys").2.2.2
    (by decide) (by decide)

/-- C2: when the last five characters of `UserName` equal `_keys`,
`createUser` issues `iam.createAccessKey` and never any
`iam.createLoginProfile`; otherwise it issues `iam.createLoginProfile` with
`PasswordResetRequired = true` (with the generated password) and never any
`iam.createAccessKey`.  The branch is decided exactly by last-5-characters
equality with `_keys` (`substrLast5`). -/
theorem createUser_branch_on_keys_suffix (name accountName : String) (env : Env)
    (h : ∀ c, env.fails c = false) :
    (substrLast5 name = "_keys" →
      Call.createAccessKey name ∈ (createUserM name accountName env).2 ∧
      ∀ u p r, Call.createLoginProfile u p r ∉ (createUserM name accountName env).2) ∧
    (substrLast5 name ≠ "_keys" →
      Call.createLoginProfile name (env.genPassword name) true ∈
        (createUserM name accountName env).2 ∧
      ∀ u, Call.createAccessKey u ∉ (createUserM name accountName env).2) := by
  rw [createUserM_nofail name accountName env h]
  constructor
  · intro hk
    simp [hk]
  · intro hk
    simp [hk]

/-- C2 witness: `svc_keys` takes the access-key branch, `alice` the
login-profile branch, in an environment where no call fails. -/
theorem createUser_branch_on_keys_suffix_witness :
    (Call.createAccessKey "svc_keys" ∈
      (createUserM "svc_keys" "acct" envAllOk).2 ∧
     ∀ u p r, Call.createLoginProfile u p r ∉
      (createUserM "svc_keys" "acct" envAllOk).2) ∧
    (Call.createLoginProfile "alice" (envAllOk.genPassword "alice") true ∈
      (createUserM "alice" "acct" envAllOk).2 ∧
     ∀ u, Call.createAccessKey u ∉ (createUserM "alice" "acct" envAllOk).2) :=
  ⟨(createUser_branch_on_keys_suffix "svc_keys" "acct" envAllOk
      (fun _ => rfl)).1 (by decide),
   (createUser_branch_on_keys_suffix "alice" "acct" envAllOk
      (fun _ => rfl)).2 (by decide)⟩

/-- C9: `createUser` returns the raw create-user response in both branches. -/
theorem createUser_returns_raw_response (name accountName : String) (env : Env)
    (h : ∀ c, env.fails c = false) :
    (createUserM name accountName env).1 = Except.ok (env.createUserResp name) := by
  rw [createUserM_nofail name accountName env h]

/-- C9 witness: concrete evaluation in a failure-free environment, one name
per branch. -/
theorem createUser_returns_raw_response_witness :
    (createUserM "svc_keys" "acct" envAllOk).1 =
      Except.ok (envAllOk.createUserResp "svc_keys") ∧
    (createUserM "alice" "acct" envAllOk).1 =
      Except.ok (envAllOk.createUserResp "alice") :=
  ⟨createUser_returns_raw_response "svc_keys" "acct" envAllOk (fun _ => rfl),
   createUser_returns_raw_response "alice" "acct" envAllOk (fun _ => rfl)⟩

theorem bind_of_error {α β : Type} (m : M α) (f : α → M β) (env : Env)
    (h : isFailure (m env).1 = true) :
    isFailure (M.bind m f env).1 = true ∧ (M.bind m f env).2 = (m env).2 := by
  cases hm : m env with
  | mk r t =>
    cases r with
    | error e => simp [M.bind, hm, isFailure]
    | ok a => rw [hm] at h; simp [isFailure] at h

theorem bind_of_ok {α β : Type} (m : M α) (f : α → M β) (env : Env) (a : α)
    (h : (m env).1 = Except.ok a) :
    M.bind m f env = ((f a env).1, (m env).2 ++ (f a env).2) := by
  cases hm : m env with
  | mk r t =>
    rw [hm] at h
    simp only at h
    subst h
    simp [M.bind, hm]

theorem bind_pure_snd {α β : Type} (m : M α) (v : β) (env : Env) :
    (M.bind m (fun _ => M.pure v) env).2 = (m env).2 := by
  cases hm : m env with
  | mk r t => cases r <;> simp [M.bind, hm, M.pure]

theorem bind_pure_fail {α β : Type} (m : M α) (v : β) (env : Env)
    (h : isFailure (m env).1 = true) :
    isFailure ((M.bind m (fun _ => M.pure v)) env).1 = true :=
  (bind_of_error m _ env h).1

theorem par_map_ok {α β : Type} (l : List β) (f : β → M α) (g : β → α) (env : Env)
    (h : ∀ b ∈ l, (f b env).1 = Except.ok (g b)) :
    (M.par (l.map f) env).1 = Except.ok (l.map g) := by
  simp only [M.par, List.map_map, Function.comp_def]
  exact exceptSeq_map_ok l (fun b => (f b env).1) g h

theorem par_error_of_mem {α : Type} (ms : List (M α)) (m : M α) (env : Env)
    (hm : m ∈ ms) (hf : isFailure (m env).1 = true) :
    isFailure (M.par ms env).1 = true := by
  simp only [M.par]
  exact exceptSeq_error_of_mem _ ((m env).1) (List.mem_map.mpr ⟨m, hm, rfl⟩) hf

theorem par_callWith_trace {α β : Type} (l : List β) (cf : β → Call)
    (rf : β → Env → α) (env : Env) :
    (M.par (l.map fun b => M.callWith (cf b) (rf b)) env).2 = l.map cf := by
  simp only [M.par, List.map_map, Function.comp_def, M.callWith]
  exact flatten_map_singleton l cf

theorem parPair_ok {α β : Type} (m1 : M α) (m2 : M β) (env : Env) (a : α) (b : β)
    (h1 : (m1 env).1 = Except.ok a) (h2 : (m2 env).1 = Except.ok b) :
    M.parPair m1 m2 env = (Except.ok (a, b), (m1 env).2 ++ (m2 env).2) := by
  simp [M.parPair, h1, h2]

theorem parPair_error_left {α β : Type} (m1 : M α) (m2 : M β) (env : Env)
    (h : isFailure (m1 env).1 = true) :
    isFailure (M.parPair m1 m2 env).1 = true := by
  cases h1 : (m1 env).1 with
  | error e => cases h2 : (m2 env).1 <;> simp [M.parPair, isFailure, h1, h2]
  | ok a => rw [h1] at h; simp [isFailure] at h

theorem parPair_error_right {α β : Type} (m1 : M α) (m2 : M β) (env : Env)
    (h : isFailure (m2 env).1 = true) :
    isFailure (M.parPair m1 m2 env).1 = true := by
  cases h2 : (m2 env).1 with
  | error e => cases h1 : (m1 env).1 <;> simp [M.parPair, isFailure, h1, h2]
  | ok b => rw [h2] at h; simp [isFailure] at h

theorem parPair_snd {α β : Type} (m1 : M α) (m2 : M β) (env : Env) :
    (M.parPair m1 m2 env).2 = (m1 env).2 ++ (m2 env).2 := rfl

theorem deleteAccessKeysM_nofail (u : String) (env : Env)
    (h : ∀ c, env.fails c = false) :
    deleteAccessKeysM u env =
      (Except.ok ((env.accessKeysOf u).map fun k => env.deleteAccessKeyResp k u),
       Call.listAccessKeys u ::
         ((env.accessKeysOf u).map fun k => Call.deleteAccessKey k u)) := by
  have h2 := par_callWith_nofail (env.accessKeysOf u)
    (fun k => Call.deleteAccessKey k u) (fun k e => e.deleteAccessKeyResp k u) env h
  simp [deleteAccessKeysM, listUserAccessKeysM, M.bind, M.callWith, h, h2]

theorem deleteAccessKeysM_trace (u : String) (env : Env) :
    (deleteAccessKeysM u env).2 =
      Call.listAccessKeys u ::
        (if env.fails (Call.listAccessKeys u) then []
         else (env.accessKeysOf u).map fun k => Call.deleteAccessKey k u) := by
  by_cases hf : env.fails (Call.listAccessKeys u) <;>
    simp [deleteAccessKeysM, listUserAccessKeysM, M.bind, M.callWith, hf,
      par_callWith_trace]

theorem groupRemovalM_nofail (u : String) (gs : List String) (env : Env)
    (h : ∀ c, env.fails c = false) :
    groupRemovalM u gs env =
      (Except.ok (gs.map fun g => env.removeFromGroupResp u g),
       gs.map fun g => Call.removeUserFromGroup u g) :=
  par_callWith_nofail gs (fun g => Call.removeUserFromGroup u g)
    (fun g e => e.removeFromGroupResp u g) env h

theorem groupRemovalM_trace (u : String) (gs : List String) (env : Env) :
    (groupRemovalM u gs env).2 = gs.map fun g => Call.removeUserFromGroup u g :=
  par_callWith_trace gs (fun g => Call.removeUserFromGroup u g)
    (fun g e => e.removeFromGroupResp u g) env

theorem credentialRemovalM_nofail (u : String) (env : Env)
    (h : ∀ c, env.fails c = false) :
    credentialRemovalM u env = (Except.ok RVal.unit, credDeleteCalls u env) := by
  by_cases hk : substrLast5 u = "_keys"
  · simp [credentialRemovalM, hk, M.bind, M.pure, credDeleteCalls,
      deleteAccessKeysM_nofail u env h]
  · simp [credentialRemovalM, hk, M.bind, M.pure, credDeleteCalls,
      deleteLoginProfileM, M.callWith, h]

theorem credentialRemovalM_trace (u : String) (env : Env) :
    (credentialRemovalM u env).2 =
      if substrLast5 u = "_keys" then (deleteAccessKeysM u env).2
      else [Call.deleteLoginProfile u] := by
  by_cases hk : substrLast5 u = "_keys" <;>
    simp [credentialRemovalM, hk, bind_pure_snd, deleteLoginProfileM, M.callWith]

theorem deleteUserM_nofail (u : String) (env : Env)
    (h : ∀ c, env.fails c = false) :
    deleteUserM u env =
      (Except.ok (env.deleteUserResp u),
       Call.listGroupsForUser u ::
         (((env.groupsOf u).map fun g => Call.removeUserFromGroup u g) ++
          credDeleteCalls u env ++ [Call.deleteUser u])) := by
  simp [deleteUserM, M.bind, M.parPair, M.callWith, h,
    groupRemovalM_nofail u (env.groupsOf u) env h, credentialRemovalM_nofail u env h]

theorem deleteUser_notin_phase_trace (u : String) (env : Env) :
    Call.deleteUser u ∉
      (M.parPair (groupRemovalM u (env.groupsOf u)) (credentialRemovalM u) env).2 := by
  rw [parPair_snd, groupRemovalM_trace, credentialRemovalM_trace]
  by_cases hk : substrLast5 u = "_keys" <;>
    simp [hk, deleteAccessKeysM_trace, List.mem_append, List.mem_map]

theorem bind_error_of_ok {α β : Type} (m : M α) (f : α → M β) (env : Env) (a : α)
    (hok : (m env).1 = Except.ok a) (hf : isFailure ((f a) env).1 = true) :
    isFailure ((M.bind m f) env).1 = true := by
  rw [bind_of_ok m f env a hok]
  exact hf

/-- C10: `deleteAccessKeys` first lists the user's access keys, then issues
exactly one `iam.deleteAccessKey` per listed key id (dispatched together) and
returns the sequence of per-key results; an empty listing yields no delete
call and an empty result sequence. -/
theorem deleteAccessKeys_one_delete_per_key (u : String) (env : Env)
    (h : ∀ c, env.fails c = false) :
    deleteAccessKeysM u env =
      (Except.ok ((env.accessKeysOf u).map fun k => env.deleteAccessKeyResp k u),
       Call.listAccessKeys u ::
         ((env.accessKeysOf u).map fun k => Call.deleteAccessKey k u)) ∧
    (env.accessKeysOf u = [] →
      deleteAccessKeysM u env = (Except.ok [], [Call.listAccessKeys u])) := by
  refine ⟨deleteAccessKeysM_nofail u env h, fun he => ?_⟩
  rw [deleteAccessKeysM_nofail u env h, he]
  rfl

/-- C10 witness: a user with keys `AK1`, `AK2` gets exactly those two delete
calls after the listing; a user with no keys gets none. -/
theorem deleteAccessKeys_one_delete_per_key_witness :
    deleteAccessKeysM "bob_keys" envAllOk =
      (Except.ok [RVal.str ("AK1" ++ "bob_keys"), RVal.str ("AK2" ++ "bob_keys")],
       [Call.listAccessKeys "bob_keys", Call.deleteAccessKey "AK1" "bob_keys",
        Call.deleteAccessKey "AK2" "bob_keys"]) ∧
    deleteAccessKeysM "bob_keys" envNoKeys =
      (Except.ok [], [Call.listAccessKeys "bob_keys"]) :=
  ⟨(deleteAccessKeys_one_delete_per_key "bob_keys" envAllOk (fun _ => rfl)).1,
   (deleteAccessKeys_one_delete_per_key "bob_keys" envNoKeys (fun _ => rfl)).2 rfl⟩

/-- C3: in a failure-free run, `deleteUser` issues the group-membership
listing, then all group removals and all credential deletions (access keys
for a `_keys` user, the login profile otherwise), and the `iam.deleteUser`
call comes last, after all of them; moreover, in any run, the
`iam.deleteUser` call is issued only if the group-listing, every group
removal and every credential deletion succeeded. -/
theorem deleteUser_removals_complete_before_delete (u : String) (env : Env) :
    ((∀ c, env.fails c = false) →
      deleteUserM u env =
        (Except.ok (env.deleteUserResp u),
         Call.listGroupsForUser u ::
           (((env.groupsOf u).map fun g => Call.removeUserFromGroup u g) ++
            credDeleteCalls u env ++ [Call.deleteUser u]))) ∧
    (Call.deleteUser u ∈ (deleteUserM u env).2 →
      env.fails (Call.listGroupsForUser u) = false ∧
      (∀ g ∈ env.groupsOf u, env.fails (Call.removeUserFromGroup u g) = false) ∧
      (substrLast5 u = "_keys" →
        env.fails (Call.listAccessKeys u) = false ∧
        ∀ k ∈ env.accessKeysOf u, env.fails (Call.deleteAccessKey k u) = false) ∧
      (substrLast5 u ≠ "_keys" → env.fails (Call.deleteLoginProfile u) = false)) := by
  constructor
  · exact fun h => deleteUserM_nofail u env h
  · intro hmem
    by_cases hLG : env.fails (Call.listGroupsForUser u)
    · exfalso
      have hcomp : deleteUserM u env =
          (Except.error (Call.listGroupsForUser u), [Call.listGroupsForUser u]) := by
        simp [deleteUserM, M.bind, M.callWith, hLG]
      rw [hcomp] at hmem
      simp at hmem
    · have hok : ((M.callWith (Call.listGroupsForUser u) fun e => e.groupsOf u) env).1
          = Except.ok (env.groupsOf u) := by
        simp [M.callWith, hLG]
      have hdu := bind_of_ok
        (M.callWith (Call.listGroupsForUser u) fun e => e.groupsOf u)
        (fun userGroups =>
          M.bind (M.parPair (groupRemovalM u userGroups) (credentialRemovalM u))
            fun _ => M.callWith (Call.deleteUser u) fun e => e.deleteUserResp u)
        env (env.groupsOf u) hok
      unfold deleteUserM at hmem
      rw [hdu] at hmem
      simp only [M.callWith, List.cons_append, List.nil_append, List.mem_cons] at hmem
      rcases hmem with hbad | hmem
      · exact absurd hbad (by simp)
      · by_cases hpp : isFailure
            ((M.parPair (groupRemovalM u (env.groupsOf u)) (credentialRemovalM u)) env).1
        · exfalso
          obtain ⟨_, hsnd⟩ := bind_of_error
            (M.parPair (groupRemovalM u (env.groupsOf u)) (credentialRemovalM u))
            (fun _ => M.callWith (Call.deleteUser u) fun e => e.deleteUserResp u) env hpp
          rw [hsnd] at hmem
          exact absurd hmem (deleteUser_notin_phase_trace u env)
        · refine ⟨?_, ?_, ?_, ?_⟩
          · cases hb : env.fails (Call.listGroupsForUser u) with
            | false => rfl
            | true => exact absurd hb hLG
          · intro g hg
            cases hb : env.fails (Call.removeUserFromGroup u g) with
            | false => rfl
            | true =>
              exfalso
              apply hpp
              apply parPair_error_left
              simp only [groupRemovalM]
              exact par_error_of_mem _
                (M.callWith (Call.removeUserFromGroup u g)
                  fun e => e.removeFromGroupResp u g) env
                (List.mem_map.mpr ⟨g, hg, rfl⟩)
                (by simp [M.callWith, hb, isFailure])
          · intro hk
            constructor
            · cases hb : env.fails (Call.listAccessKeys u) with
              | false => rfl
              | true =>
                exfalso
                apply hpp
                apply parPair_error_right
                simp only [credentialRemovalM, if_pos hk]
                apply bind_pure_fail
                simp only [deleteAccessKeysM]
                exact (bind_of_error _ _ env
                  (by simp [listUserAccessKeysM, M.callWith, hb, isFailure])).1
            · intro k hkmem
              cases hb : env.fails (Call.deleteAccessKey k u) with
              | false => rfl
              | true =>
                exfalso
                apply hpp
                apply parPair_error_right
                simp only [credentialRemovalM, if_pos hk]
                apply bind_pure_fail
                simp only [deleteAccessKeysM]
                cases hla : env.fails (Call.listAccessKeys u) with
                | true =>
                  exact (bind_of_error _ _ env
                    (by simp [listUserAccessKeysM, M.callWith, hla, isFailure])).1
                | false =>
                  apply bind_error_of_ok _ _ env (env.accessKeysOf u)
                    (by simp [listUserAccessKeysM, M.callWith, hla])
                  exact par_error_of_mem _
                    (M.callWith (Call.deleteAccessKey k u)
                      fun e => e.deleteAccessKeyResp k u) env
                    (List.mem_map.mpr ⟨k, hkmem, rfl⟩)
                    (by simp [M.callWith, hb, isFailure])
          · intro hk
            cases hb : env.fails (Call.deleteLoginProfile u) with
            | false => rfl
            | true =>
              exfalso
              apply hpp
              apply parPair_error_right
              simp only [credentialRemovalM, if_neg hk]
              apply bind_pure_fail
              simp [deleteLoginProfileM, M.callWith, hb, isFailure]

/-- C3 witness: the full trace of deleting the keys-suffixed user `bob_keys`
(delete call last), and, for `carol` in the same failure-free run, the
conclusion that every phase call had succeeded. -/
theorem deleteUser_removals_complete_before_delete_witness :
    deleteUserM "bob_keys" envAllOk =
      (Except.ok (envAllOk.deleteUserResp "bob_keys"),
       Call.listGroupsForUser "bob_keys" ::
         (((envAllOk.groupsOf "bob_keys").map
            fun g => Call.removeUserFromGroup "bob_keys" g) ++
          credDeleteCalls "bob_keys" envAllOk ++ [Call.deleteUser "bob_keys"])) ∧
    (envAllOk.fails (Call.listGroupsForUser "carol") = false ∧
     (∀ g ∈ envAllOk.groupsOf "carol",
        envAllOk.fails (Call.removeUserFromGroup "carol" g) = false) ∧
     (substrLast5 "carol" = "_keys" →
        envAllOk.fails (Call.listAccessKeys "carol") = false ∧
        ∀ k ∈ envAllOk.accessKeysOf "carol",
          envAllOk.fails (Call.deleteAccessKey k "carol") = false) ∧
     (substrLast5 "carol" ≠ "_keys" →
        envAllOk.fails (Call.deleteLoginProfile "carol") = false)) :=
  ⟨(deleteUser_removals_complete_before_delete "bob_keys" envAllOk).1 (fun _ => rfl),
   (deleteUser_removals_complete_before_delete "carol" envAllOk).2 (by decide)⟩

theorem par_map_eval {α β : Type} (l : List β) (f : β → M α) (g : β → α)
    (tr : β → List Call) (env : Env)
    (h : ∀ b ∈ l, f b env = (Except.ok (g b), tr b)) :
    M.par (l.map f) env = (Except.ok (l.map g), (l.map tr).flatten) := by
  simp only [M.par, List.map_map, Function.comp_def]
  rw [Prod.mk.injEq]
  refine ⟨exceptSeq_map_ok l _ g (fun b hb => by rw [h b hb]), ?_⟩
  have hmap : (l.map fun b => (f b env).2) = l.map tr :=
    List.map_congr_left (fun b hb => by rw [h b hb])
  rw [hmap]

theorem createPolicyM_nofail (name document : String) (env : Env)
    (h : ∀ c, env.fails c = false) :
    createPolicyM name document env =
      (Except.ok (env.createPolicyResp ⟨name, document, env.usersPath⟩),
       [Call.createPolicy ⟨name, document, env.usersPath⟩]) := by
  simp [createPolicyM, M.bind, M.getEnv, M.callWith, h]

theorem detachFromAllEntitiesM_nofail (arn : String) (env : Env)
    (h : ∀ c, env.fails c = false) :
    detachFromAllEntitiesM arn env =
      (Except.ok ((env.entitiesOf arn).map fun g => env.detachResp g arn),
       Call.listEntitiesForPolicy arn ::
         ((env.entitiesOf arn).map fun g => Call.detachGroupPolicy g arn)) := by
  have h2 := par_callWith_nofail (env.entitiesOf arn)
    (fun g => Call.detachGroupPolicy g arn) (fun g e => e.detachResp g arn) env h
  simp [detachFromAllEntitiesM, M.bind, M.callWith, h, h2]

theorem removePolicyM_nofail (arn : String) (env : Env)
    (h : ∀ c, env.fails c = false) :
    removePolicyM arn env =
      (Except.ok (env.deletePolicyResp arn),
       Call.listEntitiesForPolicy arn ::
         (((env.entitiesOf arn).map fun g => Call.detachGroupPolicy g arn) ++
          [Call.deletePolicy arn])) := by
  simp [removePolicyM, M.bind, M.callWith, h, detachFromAllEntitiesM_nofail arn env h]

theorem detachFromAllEntitiesM_trace (arn : String) (env : Env)
    (hl : env.fails (Call.listEntitiesForPolicy arn) = false) :
    (detachFromAllEntitiesM arn env).2 =
      Call.listEntitiesForPolicy arn ::
        ((env.entitiesOf arn).map fun g => Call.detachGroupPolicy g arn) := by
  unfold detachFromAllEntitiesM
  rw [bind_of_ok _ _ env (env.entitiesOf arn) (by simp [M.callWith, hl])]
  simp [M.callWith, par_callWith_trace]

/-- C8: `Users.update` lists live users filtered by the configured path
prefix (the listing call heads the trace and carries `usersPath`), and on a
failure-free run returns the pair of result sequences aligned one-to-one
with the computed `usersToAdd` and `usersToDelete` names. -/
theorem update_returns_parallel_results (json : UsersJson) (accountName : String)
    (env : Env) (h : ∀ c, env.fails c = false) :
    (updateM json accountName env).1 =
      Except.ok
        ((difference json.users env.liveUsers).map fun u => env.createUserResp u,
         (difference env.liveUsers json.users).map fun u => env.deleteUserResp u) ∧
    (updateM json accountName env).2.head? = some (Call.listUsers env.usersPath) := by
  have hadd : (M.par ((difference json.users env.liveUsers).map
      fun u => createUserM u accountName) env).1 =
      Except.ok ((difference json.users env.liveUsers).map
        fun u => env.createUserResp u) :=
    par_map_ok _ _ _ env (fun u _ => by rw [createUserM_nofail u accountName env h])
  have hdel : (M.par ((difference env.liveUsers json.users).map
      fun u => deleteUserM u) env).1 =
      Except.ok ((difference env.liveUsers json.users).map
        fun u => env.deleteUserResp u) :=
    par_map_ok _ _ _ env (fun u _ => by rw [deleteUserM_nofail u env h])
  constructor
  · simp [updateM, M.bind, M.getEnv, M.callWith, M.pure, h, M.parPair, hadd, hdel]
  · simp [updateM, M.bind, M.getEnv, M.callWith, M.pure, h, M.parPair]

/-- C8 witness: the spec's scenario, desired `[alice, bob_keys]` against live
`[bob_keys, carol]`: one create result for `alice`, one delete result for
`carol`, and the trace starts with the path-filtered listing. -/
theorem update_returns_parallel_results_witness :
    (updateM jsonUsersTest "acct" envAllOk).1 =
      Except.ok ([RVal.str "alice"], [RVal.str "carol"]) ∧
    (updateM jsonUsersTest "acct" envAllOk).2.head? =
      some (Call.listUsers "/path/") :=
  update_returns_parallel_results jsonUsersTest "acct" envAllOk (fun _ => rfl)

/-- C7: a failure of any single `createUser` or `deleteUser` inside the
concurrent batch makes `Users.update`'s aggregate result a rejection; no
error is caught locally, so the member failure propagates to `update`'s
caller. -/
theorem update_member_failure_rejects_batch (json : UsersJson)
    (accountName : String) (env : Env)
    (h : (∃ u ∈ difference json.users env.liveUsers,
            isFailure ((createUserM u accountName) env).1 = true) ∨
         (∃ u ∈ difference env.liveUsers json.users,
            isFailure ((deleteUserM u) env).1 = true)) :
    isFailure ((updateM json accountName) env).1 = true := by
  by_cases hlu : env.fails (Call.listUsers env.usersPath)
  · simp [updateM, M.bind, M.getEnv, M.callWith, hlu, isFailure]
  · have hpp : isFailure ((M.parPair
        (M.par ((difference json.users env.liveUsers).map
          fun u => createUserM u accountName))
        (M.par ((difference env.liveUsers json.users).map
          fun u => deleteUserM u))) env).1 = true := by
      rcases h with ⟨u, hu, hf⟩ | ⟨u, hu, hf⟩
      · exact parPair_error_left _ _ env
          (par_error_of_mem _ (createUserM u accountName) env
            (List.mem_map.mpr ⟨u, hu, rfl⟩) hf)
      · exact parPair_error_right _ _ env
          (par_error_of_mem _ (deleteUserM u) env
            (List.mem_map.mpr ⟨u, hu, rfl⟩) hf)
    exact bind_error_of_ok M.getEnv _ env env rfl
      (bind_error_of_ok _ _ env env.liveUsers (by simp [M.callWith, hlu])
        ((bind_of_error _ _ env hpp).1))

/-- C7 witness: with `alice` to create and the remote create-user call for
`alice` failing, the whole `update` aggregate is a rejection. -/
theorem update_member_failure_rejects_batch_witness :
    isFailure ((updateM jsonUsersTest "acct") envCreateAliceFail).1 = true :=
  update_member_failure_rejects_batch jsonUsersTest "acct" envCreateAliceFail
    (Or.inl ⟨"alice", by decide, by decide⟩)

/-- C4 counterexample: in the `#createPolicy` test setup (path `/path`,
document `doc`), the creation request issued by `createPolicy` carries
`PolicyDocument = "doc"` itself, which is not the JSON-quoted string —
the claim's re-quoting happens in `update`, not in `createPolicy`. -/
theorem createPolicy_document_not_quoted :
    (createPolicyM "policyName" "doc" envCreatePolicyTest).2 =
      [Call.createPolicy ⟨"policyName", "doc", "/path"⟩] ∧
    ("doc" : String) ≠ jsonStringifyString "doc" := by
  exact ⟨rfl, by decide⟩

/-- C4 amended: `createPolicy(name, doc)` issues exactly one creation
request, with `PolicyName = name`, `PolicyDocument = doc` passed through
unchanged (the JSON serialization of the document happens in `update` before
`createPolicy` is called), and `Path` equal to the process-wide path
configuration value; on success it returns the remote response to that
request. -/
theorem createPolicy_request_fields (name document : String) (env : Env) :
    (createPolicyM name document env).2 =
      [Call.createPolicy ⟨name, document, env.usersPath⟩] ∧
    ((∀ c, env.fails c = false) →
      (createPolicyM name document env).1 =
        Except.ok (env.createPolicyResp ⟨name, document, env.usersPath⟩)) := by
  refine ⟨rfl, fun h => ?_⟩
  simp [createPolicyM, M.bind, M.getEnv, M.callWith, h]

/-- C4 amended witness: the `#createPolicy` test's inputs; the echoed
response carries the unquoted document and the configured path. -/
theorem createPolicy_request_fields_witness :
    (createPolicyM "policyName" "doc" envCreatePolicyTest).2 =
      [Call.createPolicy ⟨"policyName", "doc", "/path"⟩] ∧
    (createPolicyM "policyName" "doc" envCreatePolicyTest).1 =
      Except.ok (RVal.createParams ⟨"policyName", "doc", "/path"⟩) :=
  ⟨(createPolicy_request_fields "policyName" "doc" envCreatePolicyTest).1,
   (createPolicy_request_fields "policyName" "doc" envCreatePolicyTest).2
     (fun _ => rfl)⟩

/-- C5: `Policies.update` performs no desired/live diff: every input policy
is unconditionally created (with its document JSON-serialized) and every
live policy is unconditionally detached and deleted; the result pairs the
create responses with the delete responses. -/
theorem policies_update_no_diff (json : PoliciesJson) (env : Env)
    (h : ∀ c, env.fails c = false) :
    policiesUpdateM json env =
      (Except.ok
        (json.policies.map fun p =>
           env.createPolicyResp ⟨p.name, jsonStringifyString p.document, env.usersPath⟩,
         env.livePolicyArns.map fun a => env.deletePolicyResp a),
       Call.listPolicies ::
         ((json.policies.map fun p =>
            Call.createPolicy ⟨p.name, jsonStringifyString p.document, env.usersPath⟩) ++
          (env.livePolicyArns.map fun a =>
            Call.listEntitiesForPolicy a ::
              (((env.entitiesOf a).map fun g => Call.detachGroupPolicy g a) ++
               [Call.deletePolicy a])).flatten)) := by
  have hcreate := par_map_eval json.policies
    (fun p => createPolicyM p.name (jsonStringifyString p.document))
    (fun p => env.createPolicyResp ⟨p.name, jsonStringifyString p.document, env.usersPath⟩)
    (fun p => [Call.createPolicy ⟨p.name, jsonStringifyString p.document, env.usersPath⟩])
    env (fun p _ => createPolicyM_nofail p.name (jsonStringifyString p.document) env h)
  have hremove := par_map_eval env.livePolicyArns (fun a => removePolicyM a)
    (fun a => env.deletePolicyResp a)
    (fun a => Call.listEntitiesForPolicy a ::
      (((env.entitiesOf a).map fun g => Call.detachGroupPolicy g a) ++
       [Call.deletePolicy a]))
    env (fun a _ => removePolicyM_nofail a env h)
  simp [policiesUpdateM, M.bind, M.callWith, M.pure, h, M.parPair, hcreate, hremove,
    flatten_map_singleton]

/-- C5 witness: the `#update` test scenario — input policy `1` with document
`doc` against live policies `123` and `1234` yields exactly the echoed
create request with the quoted document and empty path, and the two delete
responses. -/
theorem policies_update_no_diff_witness :
    (policiesUpdateM jsonPoliciesTest envPoliciesTest).1 =
      Except.ok
        ([RVal.createParams ⟨"1", "\"doc\"", ""⟩],
         [RVal.deleteParams "123", RVal.deleteParams "1234"]) := by
  rw [policies_update_no_diff jsonPoliciesTest envPoliciesTest (fun _ => rfl)]
  rfl

/-- C6: `removePolicy` issues one detach per group returned by
`listEntitiesForPolicy` and only then `deletePolicy` (last in the trace of a
failure-free run); when some detach fails, the failure propagates (the
result is a rejection) and the `deletePolicy` call is never issued. -/
theorem removePolicy_detach_before_delete (arn : String) (env : Env) :
    ((∀ c, env.fails c = false) →
      removePolicyM arn env =
        (Except.ok (env.deletePolicyResp arn),
         Call.listEntitiesForPolicy arn ::
           (((env.entitiesOf arn).map fun g => Call.detachGroupPolicy g arn) ++
            [Call.deletePolicy arn]))) ∧
    (env.fails (Call.listEntitiesForPolicy arn) = false →
      ∀ g ∈ env.entitiesOf arn, env.fails (Call.detachGroupPolicy g arn) = true →
        isFailure (removePolicyM arn env).1 = true ∧
        Call.deletePolicy arn ∉ (removePolicyM arn env).2) := by
  refine ⟨fun h => removePolicyM_nofail arn env h, fun hl g hg hgf => ?_⟩
  have hdetach : isFailure (detachFromAllEntitiesM arn env).1 = true := by
    unfold detachFromAllEntitiesM
    apply bind_error_of_ok _ _ env (env.entitiesOf arn) (by simp [M.callWith, hl])
    exact par_error_of_mem _
      (M.callWith (Call.detachGroupPolicy g arn) fun e => e.detachResp g arn) env
      (List.mem_map.mpr ⟨g, hg, rfl⟩) (by simp [M.callWith, hgf, isFailure])
  obtain ⟨h1, h2⟩ := bind_of_error (detachFromAllEntitiesM arn)
    (fun _ => M.callWith (Call.deletePolicy arn) fun e => e.deletePolicyResp arn)
    env hdetach
  refine ⟨h1, ?_⟩
  show Call.deletePolicy arn ∉ ((M.bind (detachFromAllEntitiesM arn) fun _ =>
    M.callWith (Call.deletePolicy arn) fun e => e.deletePolicyResp arn) env).2
  rw [h2, detachFromAllEntitiesM_trace arn env hl]
  simp

/-- C6 witness: a failure-free removal of policy `ARN` (both detaches, then
the delete, last), and, with the detach of `g_first` failing, a rejected
result with no `deletePolicy` call. -/
theorem removePolicy_detach_before_delete_witness :
    removePolicyM "ARN" envAllOk =
      (Except.ok (envAllOk.deletePolicyResp "ARN"),
       Call.listEntitiesForPolicy "ARN" ::
         (((envAllOk.entitiesOf "ARN").map
            fun g => Call.detachGroupPolicy g "ARN") ++
          [Call.deletePolicy "ARN"])) ∧
    (isFailure (removePolicyM "ARN" envDetachFail).1 = true ∧
     Call.deletePolicy "ARN" ∉ (removePolicyM "ARN" envDetachFail).2) :=
  ⟨(removePolicy_detach_before_delete "ARN" envAllOk).1 (fun _ => rfl),
   (removePolicy_detach_before_delete "ARN" envDetachFail).2 (by decide)
     "g_first" (by decide) (by decide)⟩

end IamManager
